import Mathlib

/-!
# Verification of the ACF/VDF reader (steam.py)

Shallow embedding of `src/steam.py`. Python strings are modelled as
`List Char`; the whitespace-split fragments handed to the parser are
`List Char` values as well. Python `dict` (ordered, last-write-wins,
update keeps the original insertion position) is modelled as an
association list together with `dictInsert`.

Python exceptions are modelled by the explicit error type `Err`:
* `expectedKey` / `expectedValue` are the two `ValueError`s raised by
  `AcfReader._key_value_split` (the spec's `MalformedDocument`); they carry
  the offending fragment position and the offending fragment.
* `indexOutOfRange` models Python's `IndexError` (reading `data[position]`
  past the end of the fragment list).
* `noDataLibrary` / `noDataManifest` model the `ValueError("No data
  loaded. ...")` raised when `len(self.data) < 1`.
* `wrongRootLibrary` / `wrongRootManifest` model the
  `ValueError("Root node '...' not found. Wrong file?")` errors
  (the spec's `SchemaMismatch`).
* `gameNotFound` models the `FileNotFoundError` in `get_game_base_path`
  (the spec's `NotFound`).
* `keyError k` models Python's `KeyError` on a missing dict key.
* `typeError` models Python's `TypeError` (indexing / iterating a value
  of the wrong runtime type).
-/

namespace Steam

/-- One whitespace-delimited fragment of the raw document. -/
abbrev Frag := List Char

/-- Membership test `c in s` on a Python string, as used on fragments. -/
def hasChar (c : Char) (f : Frag) : Bool :=
  f.contains c

/-- Python's `s.count(c)` for a single character. -/
def countChar (c : Char) (f : Frag) : Nat :=
  f.count c

/-- Python's `s.removeprefix('"')`: drop one leading quote if present. -/
def removePrefixQuote : Frag → Frag
  | '"' :: cs => cs
  | f => f

/-- Python's `s.removesuffix('"')`: drop one trailing quote if present. -/
def removeSuffixQuote (f : Frag) : Frag :=
  if f.getLast? = some '"' then f.dropLast else f

/-- Python's `s.removeprefix('"').removesuffix('"')`, used for keys and
for fully quoted values. -/
def stripQuotes (f : Frag) : Frag :=
  removeSuffixQuote (removePrefixQuote f)

/-- A parsed ACF value: the values stored in the Python dict built by
`_key_value_split` are either `None` (the placeholder written when a key
is read), a string, or a nested dict. -/
inductive Acf where
  | null : Acf
  | leaf (s : List Char) : Acf
  | block (entries : List (List Char × Acf)) : Acf

/-- The ordered mapping built by the parser (a Python `dict`). -/
abbrev Dict := List (List Char × Acf)

/-- Python `schema[k] = v`: update in place if `k` is present (keeping its
insertion position), otherwise append at the end. -/
def dictInsert (d : Dict) (k : List Char) (v : Acf) : Dict :=
  if d.any (fun p => p.1 == k) then
    d.map (fun p => if p.1 == k then (p.1, v) else p)
  else
    d ++ [(k, v)]

/-- Python `d[k]` / `k in d`: first (and, for dicts, only) entry with key `k`. -/
def dictGet (d : Dict) (k : List Char) : Option Acf :=
  (d.find? (fun p => p.1 == k)).map (fun p => p.2)

/-- Errors of the reader; see the module docstring for the mapping to the
Python exceptions. -/
inductive Err where
  | expectedKey (pos : Nat) (frag : Frag) : Err
  | expectedValue (pos : Nat) (frag : Frag) : Err
  | indexOutOfRange : Err
  | noDataLibrary : Err
  | wrongRootLibrary : Err
  | noDataManifest : Err
  | wrongRootManifest : Err
  | gameNotFound : Err
  | keyError (key : List Char) : Err
  | typeError : Err
  deriving DecidableEq

/-- The errors that are the spec's `MalformedDocument`: the two
`ValueError`s of `_key_value_split`, which carry the offending fragment
index and an expected/found description. -/
def Err.isMalformedDocument : Err → Bool
  | .expectedKey _ _ => true
  | .expectedValue _ _ => true
  | _ => false

/-- The inner `while` of the multi-fragment value case (lines 55-63 of
`steam.py`): starting from the accumulated value `acc`, append
`" " + fragment` for every fragment not containing a quote character, and
finish with `" " + fragment.removesuffix('"')` at the first fragment that
does contain one.  Returns the value, the fragments after the terminating
one, and the number of fragments consumed.  Running off the end of the
list is Python's `IndexError`. -/
def joinValue (acc : List Char) : List Frag → Except Err (List Char × List Frag × Nat)
  | [] => .error .indexOutOfRange
  | f :: rest =>
    if hasChar '"' f then
      .ok (acc ++ ' ' :: removeSuffixQuote f, rest, 1)
    else
      match joinValue (acc ++ ' ' :: f) rest with
      | .ok (val, rem, c) => .ok (val, rem, c + 1)
      | .error e => .error e

/-- The brace-depth update of the scan loop (lines 72-79 of `steam.py`):
a fragment containing `'{'` increments the level, otherwise a fragment
containing `'}'` decrements it.  (The `'"' in data[position]: pass`
statement of the source has no effect and is omitted.) -/
def braceLevel (level : Nat) (f : Frag) : Nat :=
  if hasChar '{' f then level + 1
  else if hasChar '}' f then level - 1
  else level

/-- The brace-matching scan (lines 69-82 of `steam.py`): consume fragments
while updating the level; when the level reaches `0` stop, excluding the
fragment that closed the block (the source's `position -= 1` reign-back).
Returns the sub-range, the fragments after the closing fragment, and the
number of fragments consumed (sub-range plus closing fragment).  Running
off the end of the list is Python's `IndexError`. -/
def scanBlock (level : Nat) : List Frag → Except Err (List Frag × List Frag × Nat)
  | [] => .error .indexOutOfRange
  | f :: rest =>
    if braceLevel level f = 0 then
      .ok ([], rest, 1)
    else
      match scanBlock (braceLevel level f) rest with
      | .ok (sub, rem, c) => .ok (f :: sub, rem, c + 1)
      | .error e => .error e

theorem joinValue_length {acc : List Char} {l : List Frag} {val : List Char}
    {rem : List Frag} {c : Nat} (h : joinValue acc l = .ok (val, rem, c)) :
    rem.length < l.length := by
  induction l generalizing acc val rem c with
  | nil => simp [joinValue] at h
  | cons f rest ih =>
    rw [joinValue] at h
    split at h
    · injection h with h1
      injection h1 with ha hb
      injection hb with hb1 hb2
      subst hb1
      simp only [List.length_cons]
      omega
    · cases hj : joinValue (acc ++ ' ' :: f) rest with
      | ok x =>
        obtain ⟨val', rem', c'⟩ := x
        rw [hj] at h
        injection h with h1
        injection h1 with ha hb
        injection hb with hb1 hb2
        subst hb1
        have := ih hj
        simp only [List.length_cons]
        omega
      | error e => rw [hj] at h; simp at h

theorem scanBlock_length {level : Nat} {l sub rem : List Frag} {c : Nat}
    (h : scanBlock level l = .ok (sub, rem, c)) :
    sub.length + rem.length < l.length := by
  induction l generalizing level sub rem c with
  | nil => simp [scanBlock] at h
  | cons f rest ih =>
    rw [scanBlock] at h
    split at h
    · injection h with h1
      injection h1 with ha hb
      injection hb with hb1 hb2
      subst ha
      subst hb1
      simp only [List.length_cons, List.length_nil]
      omega
    · cases hs : scanBlock (braceLevel level f) rest with
      | ok x =>
        obtain ⟨sub', rem', c'⟩ := x
        rw [hs] at h
        injection h with h1
        injection h1 with ha hb
        injection hb with hb1 hb2
        subst ha
        subst hb1
        have := ih hs
        simp only [List.length_cons]
        omega
      | error e => rw [hs] at h; simp at h

/-- The body of `AcfReader._key_value_split` (lines 41-106 of `steam.py`).
The Python `while` loop alternates between `has_key = False` (expecting a
key) and `has_key = True` (expecting a value); here one recursive step
consumes a key fragment together with its value.  `pos` is the source's
`position` cursor (used only in error messages), `schema` the dict built
so far.  The source's recursive call `self._key_value_split(slice)` is
`go 0 []` on the sub-range. -/
def go (pos : Nat) (schema : Dict) (l : List Frag) : Except Err Dict :=
  match l with
  | [] => .ok schema
  | k :: rest =>
    -- `if not '"' in data[position]: raise ValueError("Expected key ...")`
    if hasChar '"' k = false then .error (.expectedKey pos k)
    else
      match rest with
      | [] =>
        -- the loop ends while `has_key` is true: the key keeps its `None`
        -- placeholder (`schema[current_key] = None`)
        .ok (dictInsert schema (stripQuotes k) .null)
      | v :: rest2 =>
        if hasChar '"' v then
          if countChar '"' v == 1 then
            -- value containing whitespace, reassembled from fragments
            match hj : joinValue (removePrefixQuote v) rest2 with
            | .error e => .error e
            | .ok (val, rem, c) =>
              go (pos + c + 2)
                (dictInsert (dictInsert schema (stripQuotes k) .null)
                  (stripQuotes k) (.leaf val)) rem
          else
            -- fully quoted value in a single fragment
            go (pos + 2)
              (dictInsert (dictInsert schema (stripQuotes k) .null)
                (stripQuotes k) (.leaf (stripQuotes v))) rest2
        else if hasChar '{' v then
          match hs : scanBlock 1 rest2 with
          | .error e => .error e
          | .ok (sub, rem, c) =>
            if sub.length < 2 then
              -- `position - start_position < 2`: "this is an empty list"
              go (pos + c + 2)
                (dictInsert (dictInsert schema (stripQuotes k) .null)
                  (stripQuotes k) (.block [])) rem
            else
              match go 0 [] sub with
              | .error e => .error e
              | .ok d =>
                go (pos + c + 2)
                  (dictInsert (dictInsert schema (stripQuotes k) .null)
                    (stripQuotes k) (.block d)) rem
        else .error (.expectedValue (pos + 1) v)
termination_by l.length
decreasing_by
  · have := joinValue_length hj
    simp [List.length_cons]
    omega
  · simp [List.length_cons]
    omega
  · have := scanBlock_length hs
    simp [List.length_cons]
    omega
  · have := scanBlock_length hs
    simp [List.length_cons]
    omega
  · have := scanBlock_length hs
    simp [List.length_cons]
    omega

/-- `AcfReader._key_value_split(data)`: the public entry of the parser. -/
def key_value_split (data : List Frag) : Except Err Dict :=
  go 0 [] data

/-! ## Tokenizer

`AcfReader.load` tokenizes with `infile.read().strip().split()`
(line 117 of `steam.py`). -/

/-- The characters Python's `str.strip()` / `str.split()` treat as
whitespace, restricted to ASCII (the documents are ASCII-compatible):
space, tab, newline, carriage return, vertical tab, form feed. -/
def isPySpace (c : Char) : Bool :=
  c == ' ' || c == '\t' || c == '\n' || c == '\r' ||
    c == Char.ofNat 11 || c == Char.ofNat 12

/-- Python's `str.strip()`: remove leading and trailing whitespace. -/
def pyStrip (l : List Char) : List Char :=
  ((l.dropWhile isPySpace).reverse.dropWhile isPySpace).reverse

/-- Auxiliary for `pySplit`: `cur` is the reversed word currently being
scanned. -/
def pySplitAux (cur : List Char) : List Char → List (List Char)
  | [] => if cur = [] then [] else [cur.reverse]
  | c :: cs =>
    if isPySpace c then
      if cur = [] then pySplitAux [] cs else cur.reverse :: pySplitAux [] cs
    else
      pySplitAux (c :: cur) cs

/-- Python's `str.split()` with no separator: split on runs of whitespace,
with no empty fragments and no fragments for leading/trailing whitespace. -/
def pySplit (l : List Char) : List (List Char) :=
  pySplitAux [] l

/-- `infile.read().strip().split()`: the tokenization performed by
`AcfReader.load`.  A total function: there are no error cases. -/
def tokenize (text : List Char) : List Frag :=
  pySplit (pyStrip text)

/-- The specification's description of the tokenizer, stated independently
of the implementation: after trimming leading and trailing whitespace from
the whole document, the fragments are the maximal whitespace-free runs,
i.e. the non-empty groups of `List.splitOnP`. -/
def tokenizeSpec (text : List Char) : List Frag :=
  (List.splitOnP isPySpace (pyStrip text)).filter (fun w => w ≠ [])

/-! ## The reader object and its accessors -/

/-- The `AcfReader` object: `__init__` sets `filepath = None` and
`data = {}`. -/
structure AcfReader where
  filepath : Option (List Char)
  data : Dict

/-- `AcfReader()`: the freshly constructed reader. -/
def AcfReader.init : AcfReader :=
  { filepath := none, data := [] }

/-- `AcfReader.load(path)` (lines 108-117 of `steam.py`) with the file
contents passed in explicitly (reading the file is I/O outside the core):
store the path, reset `self.data` to the empty dict, then tokenize and
parse, storing the result.  A Python exception escaping the parse leaves
`self.data` as the empty dict; the pair returned here carries the final
object state together with the outcome. -/
def AcfReader.load (r : AcfReader) (path text : List Char) :
    AcfReader × Except Err Unit :=
  let r1 : AcfReader := { r with filepath := some path, data := [] }
  match key_value_split (tokenize text) with
  | .ok d => ({ r1 with data := d }, .ok ())
  | .error e => (r1, .error e)

/-- The key `"libraryfolders"`. -/
def libraryfoldersKey : List Char := "libraryfolders".data

/-- The key `"apps"`. -/
def appsKey : List Char := "apps".data

/-- The key `"path"`. -/
def pathKey : List Char := "path".data

/-- The key `"AppState"`. -/
def appStateKey : List Char := "AppState".data

/-- The scan loop of `get_game_base_path` (lines 130-135 of `steam.py`):
for each library entry (in dict order) look for `steam_gameid` among the
keys of the entry's `"apps"` sub-dict and, on a hit, return the entry's
`"path"` value.  A non-dict entry makes `entry["apps"]` a `TypeError`; a
missing `"apps"` or `"path"` key is a `KeyError`; a string-valued
`"apps"` is iterated character by character by Python's `for`.  Falling
off the loop is the `FileNotFoundError` of line 135. -/
def findApp (gid : List Char) : List (List Char × Acf) → Except Err Acf
  | [] => .error .gameNotFound
  | (_, entry) :: rest =>
    match entry with
    | .block entryD =>
      match dictGet entryD appsKey with
      | none => .error (.keyError appsKey)
      | some (.block appsD) =>
        if appsD.any (fun p => p.1 == gid) then
          match dictGet entryD pathKey with
          | some v => .ok v
          | none => .error (.keyError pathKey)
        else findApp gid rest
      | some (.leaf s) =>
        if s.any (fun c => [c] == gid) then
          match dictGet entryD pathKey with
          | some v => .ok v
          | none => .error (.keyError pathKey)
        else findApp gid rest
      | some .null => .error .typeError
    | .leaf _ => .error .typeError
    | .null => .error .typeError

/-- `AcfReader.get_game_base_path(steam_gameid)` (lines 119-135 of
`steam.py`), as a function of the loaded tree `data`. -/
def get_game_base_path (data : Dict) (gid : List Char) : Except Err Acf :=
  if data.length < 1 then .error .noDataLibrary
  else
    match dictGet data libraryfoldersKey with
    | none => .error .wrongRootLibrary
    | some (.block entries) => findApp gid entries
    | some (.leaf s) =>
      -- iterating the characters of a string: the loop body indexes the
      -- string with a one-character string, a `TypeError`; an empty
      -- string falls through to the `FileNotFoundError`
      if s.isEmpty then .error .gameNotFound else .error .typeError
    | some .null => .error .typeError

/-- `AcfReader._check_loaded_manifest` followed by
`self.data["AppState"][field]`: the common shape of
`get_game_installdir`, `get_game_name` and `get_appid`
(lines 137-173 of `steam.py`). -/
def get_manifest_field (data : Dict) (field : List Char) : Except Err Acf :=
  if data.length < 1 then .error .noDataManifest
  else
    match dictGet data appStateKey with
    | none => .error .wrongRootManifest
    | some (.block app) =>
      match dictGet app field with
      | some v => .ok v
      | none => .error (.keyError field)
    | some (.leaf _) => .error .typeError
    | some .null => .error .typeError

/-- `AcfReader.get_game_installdir()`. -/
def get_game_installdir (data : Dict) : Except Err Acf :=
  get_manifest_field data "installdir".data

/-- `AcfReader.get_game_name()`. -/
def get_game_name (data : Dict) : Except Err Acf :=
  get_manifest_field data "name".data

/-- `AcfReader.get_appid()`. -/
def get_appid (data : Dict) : Except Err Acf :=
  get_manifest_field data "appid".data

/-! ## Step lemmas for the parser loop

`go` is defined by well-founded recursion, so concrete runs and inductive
arguments both go through the following equations, one per branch of the
loop body. -/

theorem go_nil (pos : Nat) (schema : Dict) : go pos schema [] = .ok schema := by
  rw [go.eq_def]

theorem go_key_err {k : Frag} (pos : Nat) (schema : Dict) (rest : List Frag)
    (hk : hasChar '"' k = false) :
    go pos schema (k :: rest) = .error (.expectedKey pos k) := by
  rw [go.eq_def]
  simp [hk]

theorem go_key_dangling {k : Frag} (pos : Nat) (schema : Dict)
    (hk : hasChar '"' k = true) :
    go pos schema [k] = .ok (dictInsert schema (stripQuotes k) .null) := by
  rw [go.eq_def]
  simp [hk]

theorem go_val_quoted {k v : Frag} (pos : Nat) (schema : Dict) (rest2 : List Frag)
    (hk : hasChar '"' k = true) (hv : hasChar '"' v = true)
    (hc : (countChar '"' v == 1) = false) :
    go pos schema (k :: v :: rest2) =
      go (pos + 2)
        (dictInsert (dictInsert schema (stripQuotes k) .null)
          (stripQuotes k) (.leaf (stripQuotes v))) rest2 := by
  rw [go.eq_def]
  simp [hk, hv, hc]

theorem go_val_join {k v val : Frag} {rem : List Frag} {c : Nat}
    (pos : Nat) (schema : Dict) (rest2 : List Frag)
    (hk : hasChar '"' k = true) (hv : hasChar '"' v = true)
    (hc : (countChar '"' v == 1) = true)
    (hj : joinValue (removePrefixQuote v) rest2 = .ok (val, rem, c)) :
    go pos schema (k :: v :: rest2) =
      go (pos + c + 2)
        (dictInsert (dictInsert schema (stripQuotes k) .null)
          (stripQuotes k) (.leaf val)) rem := by
  rw [go.eq_def]
  simp [hk, hv, hc]
  split
  · rename_i e heq
    rw [hj] at heq
    exact Except.noConfusion heq
  · rename_i val' rem' c' heq
    rw [hj] at heq
    injection heq with h1
    injection h1 with ha hb
    injection hb with hb1 hb2
    subst ha
    subst hb1
    subst hb2
    rfl

theorem go_val_join_err {k v : Frag} {e : Err}
    (pos : Nat) (schema : Dict) (rest2 : List Frag)
    (hk : hasChar '"' k = true) (hv : hasChar '"' v = true)
    (hc : (countChar '"' v == 1) = true)
    (hj : joinValue (removePrefixQuote v) rest2 = .error e) :
    go pos schema (k :: v :: rest2) = .error e := by
  rw [go.eq_def]
  simp [hk, hv, hc]
  split
  · rename_i e' heq
    rw [hj] at heq
    injection heq with h1
    subst h1
    rfl
  · rename_i val' rem' c' heq
    rw [hj] at heq
    exact Except.noConfusion heq

theorem go_val_block_empty {k v : Frag} {sub rem : List Frag} {c : Nat}
    (pos : Nat) (schema : Dict) (rest2 : List Frag)
    (hk : hasChar '"' k = true) (hv : hasChar '"' v = false)
    (hb : hasChar '{' v = true)
    (hs : scanBlock 1 rest2 = .ok (sub, rem, c)) (hlen : sub.length < 2) :
    go pos schema (k :: v :: rest2) =
      go (pos + c + 2)
        (dictInsert (dictInsert schema (stripQuotes k) .null)
          (stripQuotes k) (.block [])) rem := by
  rw [go.eq_def]
  simp [hk, hv, hb]
  split
  · rename_i e heq
    rw [hs] at heq
    exact Except.noConfusion heq
  · rename_i sub' rem' c' heq
    rw [hs] at heq
    injection heq with h1
    injection h1 with ha hb'
    injection hb' with hb1 hb2
    subst ha
    subst hb1
    subst hb2
    rw [if_pos hlen]

theorem go_val_block_rec {k v : Frag} {sub rem : List Frag} {c : Nat} {d : Dict}
    (pos : Nat) (schema : Dict) (rest2 : List Frag)
    (hk : hasChar '"' k = true) (hv : hasChar '"' v = false)
    (hb : hasChar '{' v = true)
    (hs : scanBlock 1 rest2 = .ok (sub, rem, c)) (hlen : ¬ sub.length < 2)
    (hrec : go 0 [] sub = .ok d) :
    go pos schema (k :: v :: rest2) =
      go (pos + c + 2)
        (dictInsert (dictInsert schema (stripQuotes k) .null)
          (stripQuotes k) (.block d)) rem := by
  rw [go.eq_def]
  simp [hk, hv, hb]
  split
  · rename_i e heq
    rw [hs] at heq
    exact Except.noConfusion heq
  · rename_i sub' rem' c' heq
    rw [hs] at heq
    injection heq with h1
    injection h1 with ha hb'
    injection hb' with hb1 hb2
    subst ha
    subst hb1
    subst hb2
    rw [if_neg hlen, hrec]

theorem go_val_block_rec_err {k v : Frag} {sub rem : List Frag} {c : Nat} {e : Err}
    (pos : Nat) (schema : Dict) (rest2 : List Frag)
    (hk : hasChar '"' k = true) (hv : hasChar '"' v = false)
    (hb : hasChar '{' v = true)
    (hs : scanBlock 1 rest2 = .ok (sub, rem, c)) (hlen : ¬ sub.length < 2)
    (hrec : go 0 [] sub = .error e) :
    go pos schema (k :: v :: rest2) = .error e := by
  rw [go.eq_def]
  simp [hk, hv, hb]
  split
  · rename_i e' heq
    rw [hs] at heq
    exact Except.noConfusion heq
  · rename_i sub' rem' c' heq
    rw [hs] at heq
    injection heq with h1
    injection h1 with ha hb'
    injection hb' with hb1 hb2
    subst ha
    subst hb1
    subst hb2
    rw [if_neg hlen, hrec]

theorem go_val_block_scan_err {k v : Frag} {e : Err}
    (pos : Nat) (schema : Dict) (rest2 : List Frag)
    (hk : hasChar '"' k = true) (hv : hasChar '"' v = false)
    (hb : hasChar '{' v = true)
    (hs : scanBlock 1 rest2 = .error e) :
    go pos schema (k :: v :: rest2) = .error e := by
  rw [go.eq_def]
  simp [hk, hv, hb]
  split
  · rename_i e' heq
    rw [hs] at heq
    injection heq with h1
    subst h1
    rfl
  · rename_i sub' rem' c' heq
    rw [hs] at heq
    exact Except.noConfusion heq

theorem go_val_err {k v : Frag} (pos : Nat) (schema : Dict) (rest2 : List Frag)
    (hk : hasChar '"' k = true) (hv : hasChar '"' v = false)
    (hb : hasChar '{' v = false) :
    go pos schema (k :: v :: rest2) = .error (.expectedValue (pos + 1) v) := by
  rw [go.eq_def]
  simp [hk, hv, hb]

/-! ## Helper lemmas about fragments and dict operations -/

/-- A both-sides-quoted fragment, the canonical form `"s"`. -/
def qf (s : List Char) : Frag :=
  '"' :: s ++ ['"']

theorem hasChar_qf (s : List Char) : hasChar '"' (qf s) = true := by
  simp [hasChar, qf]

theorem hasChar_cons_quote (s : List Char) : hasChar '"' ('"' :: s) = true := by
  simp [hasChar]

theorem hasChar_concat_quote (s : List Char) : hasChar '"' (s ++ ['"']) = true := by
  simp [hasChar]

theorem removeSuffixQuote_concat (s : List Char) :
    removeSuffixQuote (s ++ ['"']) = s := by
  simp [removeSuffixQuote]

theorem removePrefixQuote_cons (s : List Char) :
    removePrefixQuote ('"' :: s) = s := by
  simp [removePrefixQuote]

theorem stripQuotes_qf (s : List Char) : stripQuotes (qf s) = s := by
  rw [stripQuotes, qf, List.cons_append, removePrefixQuote_cons, removeSuffixQuote_concat]

theorem count_of_hasChar_false {f : Frag} (h : hasChar '"' f = false) :
    countChar '"' f = 0 := by
  simp [hasChar] at h
  simp [countChar, List.count_eq_zero, h]

theorem countChar_qf (s : List Char) :
    countChar '"' (qf s) = countChar '"' s + 2 := by
  simp [countChar, qf, List.count_cons, List.count_append]

theorem countChar_qf_ne_one (s : List Char) :
    (countChar '"' (qf s) == 1) = false := by
  rw [countChar_qf]
  simp

theorem dictInsert_fresh {d : Dict} {k : List Char} (h : ∀ p ∈ d, p.1 ≠ k) (v : Acf) :
    dictInsert d k v = d ++ [(k, v)] := by
  have hany : (d.any (fun p => p.1 == k)) = false := by
    rw [List.any_eq_false]
    intro p hp
    simpa using h p hp
  simp [dictInsert, hany]

theorem dictInsert_update_last {d : Dict} {k : List Char} (h : ∀ p ∈ d, p.1 ≠ k)
    (w v : Acf) : dictInsert (d ++ [(k, w)]) k v = d ++ [(k, v)] := by
  have hany : ((d ++ [(k, w)]).any (fun p => p.1 == k)) = true := by
    simp [List.any_append]
  rw [dictInsert, if_pos hany, List.map_append]
  congr 1
  · calc d.map (fun p => if p.1 == k then (p.1, v) else p)
        = d.map id := by
          apply List.map_congr_left
          intro p hp
          have : (p.1 == k) = false := by simpa using h p hp
          simp [this]
      _ = d := List.map_id d
  · simp

theorem dictInsert_nil_twice (k : List Char) (w v : Acf) :
    dictInsert (dictInsert [] k w) k v = [(k, v)] := by
  have h1 : dictInsert ([] : Dict) k w = [(k, w)] :=
    dictInsert_fresh (by simp) w
  rw [h1]
  have h2 : dictInsert ([] ++ [(k, w)]) k v = [] ++ [(k, v)] :=
    dictInsert_update_last (by simp) w v
  simpa using h2

theorem dictGet_cons_ne {a : List Char × Acf} {d : Dict} {k : List Char}
    (h : (a.1 == k) = false) : dictGet (a :: d) k = dictGet d k := by
  simp [dictGet, List.find?_cons_of_neg, h]

theorem dictGet_cons_self {a : List Char × Acf} {d : Dict} :
    dictGet (a :: d) a.1 = some a.2 := by
  simp [dictGet, List.find?_cons_of_pos]

/-! ## Claim C1 -/

/-- Claim C1 is false on the code: parsing `"key" "value" "danglingkey"`
does not fail; the loop ends while `has_key` is true and the trailing key
keeps the `None` placeholder written at line 103 of `steam.py`. -/
theorem claim_C1_counterexample :
    key_value_split ["\"key\"".data, "\"value\"".data, "\"danglingkey\"".data] =
      .ok [("key".data, Acf.leaf "value".data), ("danglingkey".data, Acf.null)] := by
  have e1 : go 0 ([] : Dict) ["\"key\"".data, "\"value\"".data, "\"danglingkey\"".data] =
      go 2 [("key".data, Acf.leaf "value".data)] ["\"danglingkey\"".data] :=
    go_val_quoted _ _ _ rfl rfl rfl
  have e2 : go 2 [("key".data, Acf.leaf "value".data)] ["\"danglingkey\"".data] =
      .ok [("key".data, Acf.leaf "value".data), ("danglingkey".data, Acf.null)] :=
    go_key_dangling _ _ rfl
  rw [key_value_split, e1, e2]

/-- Claim C1 (amended): for the fragment sequence
`"key" "value" "danglingkey"` the parse succeeds and returns a Block of
size 2 in which `key` maps to Leaf `value` and the trailing
`danglingkey` maps to the null placeholder — the trailing key is
null-mapped, not dropped and not an error. -/
theorem claim_C1_holds :
    ∃ d, key_value_split ["\"key\"".data, "\"value\"".data, "\"danglingkey\"".data] =
        .ok d ∧
      d.length = 2 ∧
      dictGet d "key".data = some (Acf.leaf "value".data) ∧
      dictGet d "danglingkey".data = some Acf.null := by
  refine ⟨[("key".data, Acf.leaf "value".data), ("danglingkey".data, Acf.null)],
    ?_, rfl, rfl, rfl⟩
  have e1 : go 0 ([] : Dict) ["\"key\"".data, "\"value\"".data, "\"danglingkey\"".data] =
      go 2 [("key".data, Acf.leaf "value".data)] ["\"danglingkey\"".data] :=
    go_val_quoted _ _ _ rfl rfl rfl
  rw [key_value_split, e1]
  exact go_key_dangling _ _ rfl

/-! ## Claim C3 -/

/-- Claim C3 is false on the code: the key check at line 96 of `steam.py`
is `'"' in data[position]`, so a fragment that merely contains a quote
character — here `key"`, quoted on one side only — is accepted as a key
rather than rejected. -/
theorem claim_C3_counterexample :
    key_value_split ["key\"".data, "\"v\"".data] =
      .ok [("key".data, Acf.leaf "v".data)] := by
  have e1 : go 0 ([] : Dict) ["key\"".data, "\"v\"".data] =
      go 2 [("key".data, Acf.leaf "v".data)] [] :=
    go_val_quoted _ _ _ rfl rfl rfl
  rw [key_value_split, e1, go_nil]

/-- Claim C3 (amended): at a key position the parse fails with the
`MalformedDocument` "expected key" error, carrying the fragment index and
the offending fragment, exactly when the fragment contains no quote
character at all; any fragment containing at least one quote character is
accepted, and the key string is the fragment with one leading and one
trailing quote character stripped where present
(`removeprefix('"').removesuffix('"')`). -/
theorem claim_C3_holds (k : Frag) (rest : List Frag) :
    (hasChar '"' k = false →
      key_value_split (k :: rest) = .error (.expectedKey 0 k)) ∧
    (hasChar '"' k = true →
      key_value_split [k] = .ok [(stripQuotes k, Acf.null)]) := by
  constructor
  · intro h
    rw [key_value_split]
    exact go_key_err 0 [] rest h
  · intro h
    rw [key_value_split, go_key_dangling 0 [] h]
    rw [dictInsert_fresh (by simp) Acf.null]
    rfl

/-- Witness for `claim_C3_holds` at concrete inputs: a quote-free
fragment is rejected as a key; a quoted fragment is accepted and
stripped. -/
theorem claim_C3_witness :
    key_value_split ["nokey".data] = .error (.expectedKey 0 "nokey".data) ∧
    key_value_split ["\"k\"".data] = .ok [("k".data, Acf.null)] :=
  ⟨(claim_C3_holds "nokey".data []).1 rfl,
   (claim_C3_holds "\"k\"".data []).2 rfl⟩

/-! ## Scan lemmas for brace groups and unterminated values -/

theorem scanBlock_flat (sub rest : List Frag)
    (h : ∀ f ∈ sub, hasChar '{' f = false ∧ hasChar '}' f = false) :
    scanBlock 1 (sub ++ ['}'] :: rest) = .ok (sub, rest, sub.length + 1) := by
  induction sub with
  | nil =>
    rw [List.nil_append, scanBlock]
    simp [braceLevel, hasChar]
  | cons f sub ih =>
    have h1 := h f (by simp)
    have hlvl : braceLevel 1 f = 1 := by simp [braceLevel, h1.1, h1.2]
    rw [List.cons_append, scanBlock]
    simp [hlvl, ih (fun g hg => h g (by simp [hg]))]

theorem scanBlock_no_close (l : List Frag)
    (h : ∀ f ∈ l, hasChar '{' f = false ∧ hasChar '}' f = false) :
    scanBlock 1 l = .error .indexOutOfRange := by
  induction l with
  | nil => rw [scanBlock]
  | cons f rest ih =>
    have h1 := h f (by simp)
    have hlvl : braceLevel 1 f = 1 := by simp [braceLevel, h1.1, h1.2]
    rw [scanBlock]
    simp [hlvl, ih (fun g hg => h g (by simp [hg]))]

theorem joinValue_no_quote (acc : List Char) (l : List Frag)
    (h : ∀ f ∈ l, hasChar '"' f = false) :
    joinValue acc l = .error .indexOutOfRange := by
  induction l generalizing acc with
  | nil => rw [joinValue]
  | cons f rest ih =>
    rw [joinValue]
    simp [h f (by simp), ih _ (fun g hg => h g (by simp [hg]))]

/-! ## Claim C2 -/

/-- Claim C2 is false on the code: for
`"k" { "x" }` the sub-range between the braces contains one fragment, yet
the parse yields an empty Block for `k` — the `position - start_position
< 2` test at line 83 of `steam.py` treats any sub-range of fewer than two
fragments as empty and does not recurse.  The second conjunct shows what
the recursive parse of that one-fragment sub-range would have produced,
so the value is not the recursion's result. -/
theorem claim_C2_counterexample :
    key_value_split ["\"k\"".data, ['{'], "\"x\"".data, ['}']] =
      .ok [("k".data, Acf.block [])] ∧
    key_value_split ["\"x\"".data] = .ok [("x".data, Acf.null)] := by
  constructor
  · have hsc : scanBlock 1 ["\"x\"".data, ['}']] = .ok (["\"x\"".data], [], 2) := rfl
    have e1 : go 0 ([] : Dict) ["\"k\"".data, ['{'], "\"x\"".data, ['}']] =
        go (0 + 2 + 2) [("k".data, Acf.block [])] [] :=
      @go_val_block_empty "\"k\"".data ['{'] ["\"x\"".data] [] 2 0 []
        ["\"x\"".data, ['}']] rfl rfl rfl hsc (by decide)
    rw [key_value_split, e1, go_nil]
  · rw [key_value_split]
    have e : go 0 ([] : Dict) ["\"x\"".data] = .ok [("x".data, Acf.null)] :=
      go_key_dangling _ _ rfl
    exact e

/-- Claim C2 (amended): a nested brace group (with no brace characters
inside the sub-range) parses to an empty Block exactly when the sub-range
between the braces contains fewer than two fragments; when it contains
two or more fragments the same parse algorithm is invoked recursively on
the sub-range and its result becomes the value.  In particular an empty
group parses to an empty Block, not a Leaf and not an error. -/
theorem claim_C2_holds (k : List Char) (sub : List Frag)
    (h : ∀ f ∈ sub, hasChar '{' f = false ∧ hasChar '}' f = false) :
    (sub.length < 2 →
      key_value_split (qf k :: ['{'] :: (sub ++ [['}']])) =
        .ok [(k, Acf.block [])]) ∧
    (2 ≤ sub.length →
      key_value_split (qf k :: ['{'] :: (sub ++ [['}']])) =
        (key_value_split sub).map (fun d => [(k, Acf.block d)])) := by
  have hscan : scanBlock 1 (sub ++ ['}'] :: []) = .ok (sub, [], sub.length + 1) :=
    scanBlock_flat sub [] h
  have hv : hasChar '"' (['{'] : Frag) = false := rfl
  have hb : hasChar '{' (['{'] : Frag) = true := rfl
  constructor
  · intro hlen
    rw [key_value_split,
      @go_val_block_empty (qf k) ['{'] sub [] (sub.length + 1) 0 []
        (sub ++ [['}']]) (hasChar_qf k) hv hb hscan hlen, go_nil,
      stripQuotes_qf, dictInsert_nil_twice]
  · intro hlen
    rw [key_value_split]
    cases hrec : key_value_split sub with
    | ok d =>
      have hrec' : go 0 [] sub = .ok d := hrec
      rw [@go_val_block_rec (qf k) ['{'] sub [] (sub.length + 1) d 0 []
          (sub ++ [['}']]) (hasChar_qf k) hv hb hscan (by omega) hrec',
        go_nil, stripQuotes_qf, dictInsert_nil_twice]
      rfl
    | error e =>
      have hrec' : go 0 [] sub = .error e := hrec
      rw [@go_val_block_rec_err (qf k) ['{'] sub [] (sub.length + 1) e 0 []
          (sub ++ [['}']]) (hasChar_qf k) hv hb hscan (by omega) hrec']
      rfl

/-- Witness for `claim_C2_holds`: the empty group `"k" { }` parses to
an empty Block, and `"k" { "a" "b" }` parses to the recursive parse of
the two-fragment sub-range. -/
theorem claim_C2_witness :
    key_value_split [qf "k".data, ['{'], ['}']] = .ok [("k".data, Acf.block [])] ∧
    key_value_split [qf "k".data, ['{'], qf "a".data, qf "b".data, ['}']] =
      (key_value_split [qf "a".data, qf "b".data]).map
        (fun d => [("k".data, Acf.block d)]) :=
  ⟨(claim_C2_holds "k".data [] (by simp)).1 (by decide),
   (claim_C2_holds "k".data [qf "a".data, qf "b".data] (by decide)).2 (by decide)⟩

/-! ## Claim C4 -/

/-- Claim C4 is false on the code: a dangling opening brace
(`"k" {`) and an unterminated multi-fragment quoted value (`"k" "a b`)
make the scan loops read `data[position]` past the end of the fragment
list, which raises Python's `IndexError` — not the `ValueError` that
carries a position and an expected/found description (the spec's
`MalformedDocument`). -/
theorem claim_C4_counterexample :
    key_value_split ["\"k\"".data, ['{']] = .error .indexOutOfRange ∧
    key_value_split ["\"k\"".data, "\"a".data, "b".data] = .error .indexOutOfRange ∧
    Err.isMalformedDocument .indexOutOfRange = false := by
  refine ⟨?_, ?_, rfl⟩
  · rw [key_value_split]
    exact go_val_block_scan_err 0 [] [] rfl rfl rfl rfl
  · rw [key_value_split]
    exact go_val_join_err 0 [] _ rfl rfl rfl rfl

/-- Claim C4 (amended): a grammar violation at a position where a
fragment is present fails with the `MalformedDocument` `ValueError`
carrying the offending fragment index and the offending fragment
(here: a non-brace, unquoted fragment in value position; for the key
position see `claim_C3_holds`); but a dangling opening brace and an
unterminated multi-fragment quoted value run off the end of the input and
surface as Python's `IndexError`, a different kind of failure. -/
theorem claim_C4_holds (k v : Frag) (rest : List Frag)
    (hk : hasChar '"' k = true) :
    (hasChar '"' v = false → hasChar '{' v = false →
      key_value_split (k :: v :: rest) = .error (.expectedValue 1 v) ∧
      Err.isMalformedDocument (.expectedValue 1 v) = true) ∧
    ((∀ f ∈ rest, hasChar '{' f = false ∧ hasChar '}' f = false) →
      key_value_split (k :: ['{'] :: rest) = .error .indexOutOfRange) ∧
    (hasChar '"' v = true → (countChar '"' v == 1) = true →
      (∀ f ∈ rest, hasChar '"' f = false) →
      key_value_split (k :: v :: rest) = .error .indexOutOfRange) ∧
    Err.isMalformedDocument .indexOutOfRange = false := by
  refine ⟨fun hv hb => ⟨?_, rfl⟩, fun hbr => ?_, fun hv hc hq => ?_, rfl⟩
  · rw [key_value_split]
    exact go_val_err 0 [] rest hk hv hb
  · rw [key_value_split]
    exact go_val_block_scan_err 0 [] rest hk rfl rfl (scanBlock_no_close rest hbr)
  · rw [key_value_split]
    exact go_val_join_err 0 [] rest hk hv hc (joinValue_no_quote _ rest hq)

/-- Witness for `claim_C4_holds` at concrete inputs: an unquoted,
non-brace value fragment; a dangling opening brace; an unterminated
quoted value. -/
theorem claim_C4_witness :
    key_value_split ["\"k\"".data, "noval".data] =
      .error (.expectedValue 1 "noval".data) ∧
    key_value_split ["\"k\"".data, ['{'], "\"a\"".data] = .error .indexOutOfRange ∧
    key_value_split ["\"k\"".data, "\"a".data, "bb".data] = .error .indexOutOfRange :=
  ⟨((claim_C4_holds "\"k\"".data "noval".data [] rfl).1 rfl rfl).1,
   (claim_C4_holds "\"k\"".data "x".data ["\"a\"".data] rfl).2.1 (by decide),
   (claim_C4_holds "\"k\"".data "\"a".data ["bb".data] rfl).2.2.1 rfl rfl (by decide)⟩

/-! ## Claim C5 -/

/-- The pieces following the first fragment of a multi-fragment value,
each preceded by the single ASCII space the join inserts. -/
def spacePrefixed : List Frag → List Char
  | [] => []
  | f :: fs => ' ' :: (f ++ spacePrefixed fs)

theorem spacePrefixed_concat (mid : List Frag) (wn : List Char) :
    spacePrefixed (mid ++ [wn]) = spacePrefixed mid ++ ' ' :: wn := by
  induction mid with
  | nil => simp [spacePrefixed]
  | cons f fs ih => simp [spacePrefixed, ih]

theorem intercalate_space (w : List Char) (ws : List Frag) :
    List.intercalate [' '] (w :: ws) = w ++ spacePrefixed ws := by
  induction ws generalizing w with
  | nil => simp [List.intercalate, spacePrefixed]
  | cons g gs ih =>
    have h2 : List.intercalate [' '] (w :: g :: gs) =
        w ++ ' ' :: List.intercalate [' '] (g :: gs) := by
      simp [List.intercalate, List.intersperse_cons_cons]
    rw [h2, ih g]
    simp [spacePrefixed]

/-- A run of the inner join loop: quote-free middle fragments followed by
a terminating fragment containing a quote character. -/
theorem joinValue_run (acc : List Char) (mid : List Frag) (last : Frag)
    (rest : List Frag) (hm : ∀ f ∈ mid, hasChar '"' f = false)
    (hl : hasChar '"' last = true) :
    joinValue acc (mid ++ last :: rest) =
      .ok (acc ++ spacePrefixed mid ++ ' ' :: removeSuffixQuote last,
        rest, mid.length + 1) := by
  induction mid generalizing acc with
  | nil =>
    rw [List.nil_append, joinValue]
    simp [hl, spacePrefixed]
  | cons f mid ih =>
    have hf := hm f (by simp)
    rw [List.cons_append, joinValue]
    simp [hf, ih (acc ++ ' ' :: f) (fun g hg => hm g (by simp [hg])), spacePrefixed]

/-- Claim C5: in value position a fragment containing exactly one quote
character starts a multi-fragment value: it and the following fragments up
to and including the next fragment containing a quote character are joined
with a single ASCII space, the leading quote of the first piece and the
trailing quote of the last piece are stripped, and the joined string is
the Leaf value; a fragment containing two or more quote characters is
taken alone as a self-contained fully quoted value. -/
theorem claim_C5_holds (k w0 wn : List Char) (mid : List Frag)
    (h0 : hasChar '"' w0 = false)
    (hm : ∀ f ∈ mid, hasChar '"' f = false) :
    key_value_split (qf k :: ('"' :: w0) :: (mid ++ [wn ++ ['"']])) =
      .ok [(k, Acf.leaf (List.intercalate [' '] (w0 :: (mid ++ [wn]))))] ∧
    (∀ v : Frag, 2 ≤ countChar '"' v →
      key_value_split [qf k, v] = .ok [(k, Acf.leaf (stripQuotes v))]) := by
  constructor
  · have h0' : countChar '"' w0 = 0 := count_of_hasChar_false h0
    simp only [countChar] at h0'
    have hcnt : countChar '"' ('"' :: w0) = 1 := by
      simp [countChar, List.count_cons, h0']
    have hc1 : (countChar '"' ('"' :: w0) == 1) = true := by simp [hcnt]
    have hj : joinValue (removePrefixQuote ('"' :: w0)) (mid ++ (wn ++ ['"']) :: []) =
        .ok (w0 ++ spacePrefixed mid ++ ' ' :: wn, [], mid.length + 1) := by
      rw [removePrefixQuote_cons]
      have h := joinValue_run w0 mid (wn ++ ['"']) [] hm (hasChar_concat_quote wn)
      rw [removeSuffixQuote_concat] at h
      exact h
    rw [key_value_split,
      @go_val_join (qf k) ('"' :: w0) (w0 ++ spacePrefixed mid ++ ' ' :: wn) []
        (mid.length + 1) 0 [] (mid ++ [wn ++ ['"']]) (hasChar_qf k)
        (hasChar_cons_quote w0) hc1 hj,
      go_nil, stripQuotes_qf, dictInsert_nil_twice, intercalate_space,
      spacePrefixed_concat, List.append_assoc]
  · intro v hv
    have hcv : (countChar '"' v == 1) = false := by
      rw [beq_eq_false_iff_ne]
      omega
    have hhv : hasChar '"' v = true := by
      cases hcase : hasChar '"' v with
      | true => rfl
      | false =>
        have := count_of_hasChar_false hcase
        omega
    rw [key_value_split,
      @go_val_quoted (qf k) v 0 [] [] (hasChar_qf k) hhv hcv,
      go_nil, stripQuotes_qf, dictInsert_nil_twice]

/-- Witness for `claim_C5_holds`: the spec's example
`"key" "hello world"`, tokenized as `"key"`, `"hello`, `world"`,
reassembles to the Leaf value `hello world`; and the self-contained
quoted fragment `"ab"` is taken alone. -/
theorem claim_C5_witness :
    key_value_split ["\"key\"".data, "\"hello".data, "world\"".data] =
      .ok [("key".data, Acf.leaf "hello world".data)] ∧
    key_value_split ["\"key\"".data, "\"ab\"".data] =
      .ok [("key".data, Acf.leaf "ab".data)] := by
  constructor
  · exact (claim_C5_holds "key".data "hello".data "world".data [] rfl
      (by simp)).1
  · exact (claim_C5_holds "key".data "x".data "y".data [] rfl
      (by simp)).2 "\"ab\"".data (by decide)

/-! ## Claim C6 -/

/-- The fragment sequence of a flat document of `"key" "value"` pairs. -/
def pairFrags : List (List Char × List Char) → List Frag
  | [] => []
  | p :: ps => qf p.1 :: qf p.2 :: pairFrags ps

theorem go_pairs (ps : List (List Char × List Char)) (pos : Nat) (schema : Dict)
    (hnd : (ps.map Prod.fst).Nodup)
    (hfresh : ∀ p ∈ ps, ∀ q ∈ schema, q.1 ≠ p.1) :
    go pos schema (pairFrags ps) =
      .ok (schema ++ ps.map (fun p => (p.1, Acf.leaf p.2))) := by
  induction ps generalizing pos schema with
  | nil => simp [pairFrags, go_nil]
  | cons p ps ih =>
    obtain ⟨k, v⟩ := p
    rw [List.map_cons] at hnd
    have hknotin := (List.nodup_cons.mp hnd).1
    have hnd' := (List.nodup_cons.mp hnd).2
    have hk_fresh : ∀ q ∈ schema, q.1 ≠ k := fun q hq =>
      hfresh (k, v) (by simp) q hq
    have hfresh' : ∀ p' ∈ ps, ∀ q ∈ schema ++ [(k, Acf.leaf v)], q.1 ≠ p'.1 := by
      intro p' hp' q hq
      rcases List.mem_append.mp hq with hq | hq
      · exact hfresh p' (by simp [hp']) q hq
      · have hq' : q = (k, Acf.leaf v) := by simpa using hq
        subst hq'
        intro he
        exact hknotin (by rw [he]; exact List.mem_map_of_mem Prod.fst hp')
    rw [pairFrags,
      @go_val_quoted (qf k) (qf v) pos schema (pairFrags ps) (hasChar_qf k)
        (hasChar_qf v) (countChar_qf_ne_one v),
      stripQuotes_qf, stripQuotes_qf, dictInsert_fresh hk_fresh,
      dictInsert_update_last hk_fresh, ih (pos + 2) _ hnd' hfresh']
    simp

theorem dictGet_pairs (ps : List (List Char × List Char))
    (hnd : (ps.map Prod.fst).Nodup) :
    ∀ p ∈ ps, dictGet (ps.map (fun q => (q.1, Acf.leaf q.2))) p.1 =
      some (Acf.leaf p.2) := by
  induction ps with
  | nil => simp
  | cons a ps ih =>
    rw [List.map_cons] at hnd ⊢
    intro p hp
    rcases List.mem_cons.mp hp with h | h
    · subst h
      exact dictGet_cons_self
    · have hmem : p.1 ∈ ps.map Prod.fst := List.mem_map_of_mem _ h
      have hne : (a.1 == p.1) = false := by
        rw [beq_eq_false_iff_ne]
        intro he
        exact (List.nodup_cons.mp hnd).1 (by rw [he]; exact hmem)
      rw [dictGet_cons_ne hne]
      exact ih (List.nodup_cons.mp hnd).2 p h

/-- Claim C6: for every document of `n` both-sides-quoted `"key" "value"`
pairs with distinct keys at one nesting level, the parse returns a Block
of size `n` in which each key maps to exactly the corresponding Leaf
value, quotes stripped, with no extra whitespace. -/
theorem claim_C6_holds (ps : List (List Char × List Char))
    (hnd : (ps.map Prod.fst).Nodup) :
    key_value_split (pairFrags ps) =
      .ok (ps.map (fun p => (p.1, Acf.leaf p.2))) ∧
    (ps.map (fun p => (p.1, Acf.leaf p.2))).length = ps.length ∧
    ∀ p ∈ ps, dictGet (ps.map (fun q => (q.1, Acf.leaf q.2))) p.1 =
      some (Acf.leaf p.2) := by
  refine ⟨?_, by simp, dictGet_pairs ps hnd⟩
  have h := go_pairs ps 0 [] hnd (by simp)
  simpa [key_value_split] using h

/-- Witness for `claim_C6_holds` on a concrete two-pair document. -/
theorem claim_C6_witness :
    key_value_split (pairFrags [("a".data, "1".data), ("b".data, "2".data)]) =
      .ok [("a".data, Acf.leaf "1".data), ("b".data, Acf.leaf "2".data)] ∧
    dictGet [("a".data, Acf.leaf "1".data), ("b".data, Acf.leaf "2".data)]
      "b".data = some (Acf.leaf "2".data) := by
  have h := claim_C6_holds [("a".data, "1".data), ("b".data, "2".data)] (by decide)
  exact ⟨h.1, h.2.2 ("b".data, "2".data) (by simp)⟩

/-! ## Claim C7 -/

/-- The spec's example library tree: entry `"1"` holds apps
`{"100": "0"}`, entry `"0"` holds apps `{"200": "0"}`. -/
def exampleLibrary : Dict :=
  [(libraryfoldersKey, Acf.block
    [("1".data, Acf.block
      [(appsKey, Acf.block [("100".data, Acf.leaf "0".data)]),
       (pathKey, Acf.leaf "path1".data)]),
     ("0".data, Acf.block
      [(appsKey, Acf.block [("200".data, Acf.leaf "0".data)]),
       (pathKey, Acf.leaf "path0".data)])])]

theorem findApp_none (gid : List Char) (entries : List (List Char × Acf))
    (h : ∀ p ∈ entries, ∃ eD aD, p.2 = Acf.block eD ∧
      dictGet eD appsKey = some (Acf.block aD) ∧
      ∀ q ∈ aD, (q.1 == gid) = false) :
    findApp gid entries = .error .gameNotFound := by
  induction entries with
  | nil => rfl
  | cons p rest ih =>
    obtain ⟨eD, aD, hblock, happs, hnone⟩ := h p (by simp)
    obtain ⟨sid, entry⟩ := p
    simp only at hblock
    subst hblock
    have hany : (aD.any (fun q => q.1 == gid)) = false := by
      rw [List.any_eq_false]
      intro q hq
      simpa using hnone q hq
    simp only [findApp]
    rw [happs]
    simp only [hany, Bool.false_eq_true, if_false]
    exact ih (fun q hq => h q (by simp [hq]))

/-- Claim C7 is false on the code in one point: for an *empty* root Block
(which certainly lacks the key `"libraryfolders"`),
`get_game_base_path` raises the `ValueError("No data loaded. Load
libraryfolders.vdf first")` of line 125 of `steam.py`, not the
`ValueError("Root node 'libraryfolders' not found...")` of line 128 that
corresponds to the spec's `SchemaMismatch`. -/
theorem claim_C7_counterexample :
    get_game_base_path [] "1".data = .error .noDataLibrary ∧
    Err.noDataLibrary ≠ Err.wrongRootLibrary :=
  ⟨rfl, by decide⟩

/-- Claim C7 (amended): `game_base_path` scans every library entry's
nested `"apps"` Block for the requested app id and returns the sibling
`"path"` value of the entry containing it (on the spec's two-entry
example, querying `"200"` returns entry `"0"`'s path); it fails with
`NotFound` when no entry's apps contain the id; and it fails with
`SchemaMismatch` when the root Block is non-empty and lacks the key
`"libraryfolders"` (an empty root fails with the distinct no-data error
instead). -/
theorem claim_C7_holds :
    get_game_base_path exampleLibrary "200".data = .ok (Acf.leaf "path0".data) ∧
    get_game_base_path exampleLibrary "999".data = .error .gameNotFound ∧
    (∀ (d : Dict) (gid : List Char), d ≠ [] →
      dictGet d libraryfoldersKey = none →
      get_game_base_path d gid = .error .wrongRootLibrary) ∧
    (∀ (gid : List Char) (entries : List (List Char × Acf)),
      (∀ p ∈ entries, ∃ eD aD, p.2 = Acf.block eD ∧
        dictGet eD appsKey = some (Acf.block aD) ∧
        ∀ q ∈ aD, (q.1 == gid) = false) →
      findApp gid entries = .error .gameNotFound) := by
  refine ⟨rfl, rfl, ?_, fun gid entries h => findApp_none gid entries h⟩
  intro d gid hne hget
  have hlen : ¬ d.length < 1 := by
    cases d with
    | nil => exact absurd rfl hne
    | cons a l => simp
  rw [get_game_base_path, if_neg hlen, hget]

/-- Witness for `claim_C7_holds` at concrete inputs: a non-empty tree
without `"libraryfolders"` is a schema mismatch; a library whose single
entry does not hold the app id is a not-found. -/
theorem claim_C7_witness :
    get_game_base_path [("x".data, Acf.null)] "1".data =
      .error .wrongRootLibrary ∧
    findApp "9".data [("0".data, Acf.block
      [(appsKey, Acf.block [("8".data, Acf.leaf "0".data)]),
       (pathKey, Acf.leaf "p".data)])] = .error .gameNotFound := by
  constructor
  · exact claim_C7_holds.2.2.1 [("x".data, Acf.null)] "1".data (by simp) rfl
  · refine claim_C7_holds.2.2.2 "9".data _ ?_
    intro p hp
    simp only [List.mem_singleton] at hp
    subst hp
    exact ⟨_, _, rfl, rfl, by decide⟩

/-! ## Claim C8 -/

/-- The spec's example manifest tree
`Block{AppState: Block{appid: "881100", name: "Noita", installdir: "Noita"}}`. -/
def exampleManifest : Dict :=
  [(appStateKey, Acf.block
    [("appid".data, Acf.leaf "881100".data),
     ("name".data, Acf.leaf "Noita".data),
     ("installdir".data, Acf.leaf "Noita".data)])]

/-- Claim C8 is false on the code in one point: for an *empty* tree
(which certainly lacks the root key `"AppState"`),
`_check_loaded_manifest` raises the `ValueError("No data loaded. ...")`
of line 143 of `steam.py`, not the `ValueError("Root node 'AppState' not
found...")` of line 146 that corresponds to the spec's `SchemaMismatch`. -/
theorem claim_C8_counterexample :
    get_manifest_field [] "name".data = .error .noDataManifest ∧
    Err.noDataManifest ≠ Err.wrongRootManifest :=
  ⟨rfl, by decide⟩

/-- Claim C8 (amended): reading a field from a manifest tree fails with
`SchemaMismatch` when the tree is non-empty and the root key `"AppState"`
is absent (an empty tree fails with the distinct no-data error instead);
when `"AppState"` maps to a Block, the field's value inside it is
returned, and a missing field key fails with the key-not-found error
(Python's `KeyError`).  On the spec's example tree, reading `"name"`
returns `"Noita"` and reading a missing field fails with the
key-not-found error. -/
theorem claim_C8_holds :
    get_manifest_field exampleManifest "name".data =
      .ok (Acf.leaf "Noita".data) ∧
    get_game_name exampleManifest = .ok (Acf.leaf "Noita".data) ∧
    get_manifest_field exampleManifest "missing".data =
      .error (.keyError "missing".data) ∧
    (∀ (d : Dict) (field : List Char), d ≠ [] →
      dictGet d appStateKey = none →
      get_manifest_field d field = .error .wrongRootManifest) ∧
    (∀ (d : Dict) (field : List Char) (app : Dict), d ≠ [] →
      dictGet d appStateKey = some (Acf.block app) →
      (∀ v, dictGet app field = some v →
        get_manifest_field d field = .ok v) ∧
      (dictGet app field = none →
        get_manifest_field d field = .error (.keyError field))) := by
  refine ⟨rfl, rfl, rfl, ?_, ?_⟩
  · intro d field hne hget
    have hlen : ¬ d.length < 1 := by
      cases d with
      | nil => exact absurd rfl hne
      | cons a l => simp
    rw [get_manifest_field, if_neg hlen, hget]
  · intro d field app hne happ
    have hlen : ¬ d.length < 1 := by
      cases d with
      | nil => exact absurd rfl hne
      | cons a l => simp
    constructor
    · intro v hv
      rw [get_manifest_field, if_neg hlen, happ]
      simp [hv]
    · intro hnone
      rw [get_manifest_field, if_neg hlen, happ]
      simp [hnone]

/-- Witness for `claim_C8_holds` at concrete inputs. -/
theorem claim_C8_witness :
    get_manifest_field [("x".data, Acf.null)] "name".data =
      .error .wrongRootManifest ∧
    get_manifest_field exampleManifest "appid".data =
      .ok (Acf.leaf "881100".data) :=
  ⟨claim_C8_holds.2.2.2.1 [("x".data, Acf.null)] "name".data (by simp) rfl,
   (claim_C8_holds.2.2.2.2 exampleManifest "appid".data _ (by simp [exampleManifest]) rfl).1
     (Acf.leaf "881100".data) rfl⟩

/-! ## Claim C9 -/

/-- The shape `pySplitAux cur l` takes when expressed through
`List.splitOnP`: the currently scanned word `cur` merges with the first
group, empty groups disappear. -/
def glue (cur : List Char) : List (List Char) → List (List Char)
  | [] => if cur = [] then [] else [cur.reverse]
  | g :: gs =>
    (if cur.reverse ++ g = [] then [] else [cur.reverse ++ g]) ++
      gs.filter (fun w => w ≠ [])

theorem glue_nil_filter (g : List Char) (gs : List (List Char)) :
    glue [] (g :: gs) = (g :: gs).filter (fun w => w ≠ []) := by
  rw [glue, List.filter_cons]
  by_cases hg : g = [] <;> simp [hg]

theorem pySplitAux_glue (l : List Char) : ∀ cur,
    pySplitAux cur l = glue cur (List.splitOnP isPySpace l) := by
  induction l with
  | nil =>
    intro cur
    rw [pySplitAux, List.splitOnP_nil, glue]
    by_cases hcur : cur = [] <;> simp [hcur]
  | cons c cs ih =>
    intro cur
    obtain ⟨g, gs, hggs⟩ :=
      List.exists_cons_of_ne_nil (List.splitOnP_ne_nil isPySpace cs)
    rw [pySplitAux, List.splitOnP_cons]
    by_cases hc : isPySpace c
    · rw [if_pos hc, if_pos hc, glue]
      have hfilter : pySplitAux [] cs =
          (List.splitOnP isPySpace cs).filter (fun w => w ≠ []) := by
        rw [ih [], hggs, glue_nil_filter]
      by_cases hcur : cur = []
      · simp [hcur, hfilter]
      · simp [hcur, hfilter]
    · rw [if_neg hc, if_neg hc, ih (c :: cur), hggs, List.modifyHead_cons]
      simp only [glue]
      have h1 : (c :: cur).reverse ++ g = cur.reverse ++ (c :: g) := by simp
      rw [h1]

theorem pySplit_eq_filter (l : List Char) :
    pySplit l = (List.splitOnP isPySpace l).filter (fun w => w ≠ []) := by
  obtain ⟨g, gs, h⟩ :=
    List.exists_cons_of_ne_nil (List.splitOnP_ne_nil isPySpace l)
  rw [pySplit, pySplitAux_glue l [], h, glue_nil_filter]

/-- Claim C9: `tokenize` splits the raw document on runs of ASCII
whitespace after trimming leading and trailing whitespace (it agrees
everywhere with `tokenizeSpec`, the independent `List.splitOnP`
formulation of the spec's words); it is a total function with no error
cases; the empty document and a document of only whitespace yield the
empty fragment sequence. -/
theorem claim_C9_holds (text : List Char) :
    tokenize text = tokenizeSpec text ∧
    tokenize [] = [] ∧
    ((∀ c ∈ text, isPySpace c = true) → tokenize text = []) := by
  refine ⟨?_, rfl, ?_⟩
  · rw [tokenize, tokenizeSpec, pySplit_eq_filter]
  · intro h
    have h1 : text.dropWhile isPySpace = [] := by
      rw [List.dropWhile_eq_nil_iff]
      intro c hc
      exact h c hc
    rw [tokenize, pyStrip, h1]
    rfl

/-- Witness for `claim_C9_holds`: a whitespace-only document tokenizes
to the empty sequence; a concrete mixed document agrees with the
specification formulation. -/
theorem claim_C9_witness :
    tokenize "  \t\n ".data = [] ∧
    tokenize " a  bb ".data = tokenizeSpec " a  bb ".data :=
  ⟨(claim_C9_holds "  \t\n ".data).2.2 (by decide),
   (claim_C9_holds " a  bb ".data).1⟩

/-! ## Claim C10 -/

/-- Claim C10: `load` resets the reader's stored tree to the empty dict
before parsing, so a load whose parse fails leaves the reader's data
empty — the previously loaded tree is never retained; and the resulting
reader state does not depend on the reader's previous state at all. -/
theorem claim_C10_holds (r r' : AcfReader) (path text : List Char) :
    (∀ e, (AcfReader.load r path text).2 = .error e →
      (AcfReader.load r path text).1.data = []) ∧
    (AcfReader.load r path text).1 = (AcfReader.load r' path text).1 := by
  constructor
  · intro e he
    cases hp : key_value_split (tokenize text) with
    | ok d =>
      rw [AcfReader.load] at he
      simp [hp] at he
    | error e2 =>
      rw [AcfReader.load]
      simp [hp]
  · cases hp : key_value_split (tokenize text) with
    | ok d => simp [AcfReader.load, hp]
    | error e2 => simp [AcfReader.load, hp]

/-- Witness for `claim_C10_holds`: loading the unparsable document `x`
over a reader holding a previously loaded tree fails and leaves the
reader's data empty. -/
theorem claim_C10_witness :
    (AcfReader.load ⟨some "old".data, [("k".data, Acf.leaf "v".data)]⟩
      "p".data "x".data).2 = .error (.expectedKey 0 "x".data) ∧
    (AcfReader.load ⟨some "old".data, [("k".data, Acf.leaf "v".data)]⟩
      "p".data "x".data).1.data = [] := by
  have h1 : key_value_split (tokenize "x".data) =
      .error (.expectedKey 0 "x".data) := by
    have ht : tokenize "x".data = ["x".data] := rfl
    rw [ht, key_value_split]
    exact @go_key_err "x".data 0 [] [] rfl
  have h2 : (AcfReader.load ⟨some "old".data, [("k".data, Acf.leaf "v".data)]⟩
      "p".data "x".data).2 = .error (.expectedKey 0 "x".data) := by
    rw [AcfReader.load]
    simp [h1]
  exact ⟨h2, (claim_C10_holds ⟨some "old".data, [("k".data, Acf.leaf "v".data)]⟩
    ⟨some "old".data, [("k".data, Acf.leaf "v".data)]⟩ "p".data "x".data).1
    (.expectedKey 0 "x".data) h2⟩

end Steam
